import Mathlib

/-!
# mskrc: cluster resolution and multi-format emission

A shallow embedding of the Go sources of `mskrc`:

* `internal/config.go`                 (`Cluster`)
* `cmd/mskrc/main.go`                  (`getClusters`, `slicesFilter`, `sliceFlag.Set`,
                                        `pairFlag.Set`, the three `Exec` bodies)
* `internal/kafconfig/config.go`       (`kafconfig.New`, `kafconfig.Marshal`)
* `internal/kafkactlconfig/config.go`  (`kafkactlconfig.New`, `kafkactlconfig.Marshal`)
* `internal/kclconfig/config.go`       (`kclconfig.New`, `kclconfig.Marshal`)
* `main.go`                            (the legacy entry point, namespace `Legacy`)

Conventions of the embedding.

* Go strings are Lean `String`s, Go slices are `List`s, `append(s, v)` is `s ++ [v]`.
* A Go `map[string]V` is an association list `GoMap V` read by first match; `m[k] = v`
  removes every binding of `k` and adds the new one.
* The cloud SDK client, the YAML encoder and the TOML encoder are collaborators outside the
  repository. They are parameters: a `Client` answers the two requests made of it, an encoder
  is any function from the value to the bytes it wrote and the error it returned.
* A Go `error` is an `Error`: a base message or a wrapped cause (`fmt.Errorf("ctx: %w", err)`).
* The output stream is the string of everything written so far.
* Go strings are byte sequences and Lean strings are sequences of characters; the program cuts
  strings only at `:` and `,`, which are single bytes that occur in no multi-byte character,
  so on UTF-8 text the two views cut at the same places.
* The pointer fields the program dereferences (`ClusterName`, `ClusterArn`,
  `BootstrapBrokerString`, `KafkaVersion`) are taken to be non-nil, as the boundary contract
  with the directory service requires; `log.Fatalf` on a failed SDK configuration happens
  before any of the modelled code runs.
* The message of a failed broker request prints the pointer `ci.ClusterArn` with `%v`, an
  address that differs from run to run; it is the field `ClusterArnAddr` of the listing, and
  no property below depends on it.
-/

namespace Mskrc

/-! ## Go maps -/

/-- A Go `map[string]V`, as an association list read by first match. -/
abbrev GoMap (V : Type) := List (String × V)

namespace GoMap

/-- The two-valued lookup `v, ok := m[k]`. -/
def get {V : Type} : GoMap V → String → Option V
  | [], _ => none
  | (k', v) :: m, k => if k' = k then some v else get m k

/-- The assignment `m[k] = v`. -/
def set {V : Type} (m : GoMap V) (k : String) (v : V) : GoMap V :=
  (k, v) :: m.filter (fun p => decide (p.1 ≠ k))

/-- The keys present in the map, one per binding. -/
def keys {V : Type} (m : GoMap V) : List String :=
  m.map Prod.fst

end GoMap

/-! ## The `strings` functions used by the program -/

/-- Cut a text at the first occurrence of `sep`: the text before it and the text after it
(`strings.Index` followed by the two slicings `s[:m]` and `s[m+len(sep):]` of `genSplit`). -/
def cutFirst (sep : Char) : List Char → Option (List Char × List Char)
  | [] => none
  | c :: cs =>
    if c = sep then some ([], cs)
    else
      match cutFirst sep cs with
      | none => none
      | some (a, b) => some (c :: a, b)

/-- The loop of Go's `genSplit(s, sep, 0, n)` for a one-character separator and `n ≥ 0`: at most
`n - 1` cuts, the unsplit remainder last. -/
def splitNChars (sep : Char) : Nat → List Char → List (List Char)
  | 0, _ => []
  | 1, s => [s]
  | n + 2, s =>
    match cutFirst sep s with
    | none => [s]
    | some (a, b) => a :: splitNChars sep (n + 1) b

namespace strings

/-- Go's `strings.SplitN(s, sep, n)` for a one-character separator and `n ≥ 0`. -/
def SplitN (s : String) (sep : Char) (n : Nat) : List String :=
  (splitNChars sep n s.data).map String.mk

/-- Go's `strings.Split(s, sep)` for a one-character separator: `genSplit` with
`n = Count(s, sep) + 1`. -/
def Split (s : String) (sep : Char) : List String :=
  (splitNChars sep (s.data.count sep + 1) s.data).map String.mk

end strings

/-! ## `internal/config.go` -/

/-- The resolved cluster record `internal.Cluster`. -/
structure Cluster where
  Name : String
  Alias : String
  Brokers : List String
  Version : String
deriving DecidableEq, Repr

/-- A Go `error` value: a message, or a cause wrapped with context by `fmt.Errorf("...: %w")`. -/
inductive Error where
  | base (msg : String)
  | wrap (ctx : String) (cause : Error)
deriving DecidableEq, Repr

/-! ## The directory service (AWS SDK client), at its boundary -/

/-- One element of `ListClustersOutput.ClusterInfoList`, with the three fields the program
dereferences. `ClusterArn` is a `*string`; the program also prints that pointer itself with
`%v`, and `ClusterArnAddr` is the text so printed (an address, not the ARN). -/
structure ClusterInfo where
  ClusterArn : String
  ClusterName : String
  KafkaVersion : String
  ClusterArnAddr : String
deriving DecidableEq, Repr

/-- The `*kafka.Client`: the answer to `ListClusters` and, per cluster ARN, the answer to
`GetBootstrapBrokers` (its `BootstrapBrokerString`). -/
structure Client where
  ListClusters : Except Error (List ClusterInfo)
  GetBootstrapBrokers : String → Except Error String

/-! ## `cmd/mskrc/main.go`: discovery and alias lookup -/

/-- The `for _, ci := range listClustersResult.ClusterInfoList` loop of `getClusters`, with the
slice `clusters` built so far as accumulator. A failed broker request is wrapped by
`fmt.Errorf("arn: %v: %w", ci.ClusterArn, err)`, whose `%v` prints the pointer. -/
def getClustersLoop (svc : Client) (aliases : GoMap String) :
    List ClusterInfo → List Cluster → Except Error (List Cluster)
  | [], clusters => .ok clusters
  | ci :: rest, clusters =>
    match svc.GetBootstrapBrokers ci.ClusterArn with
    | .error err => .error (.wrap ("arn: " ++ ci.ClusterArnAddr) err)
    | .ok bootstrapout =>
      let name := ci.ClusterName
      let alias0 := (aliases.get ci.ClusterName).getD ""
      getClustersLoop svc aliases rest
        (clusters ++ [{ Name := name, Alias := alias0,
                        Brokers := strings.Split bootstrapout ',',
                        Version := ci.KafkaVersion }])

/-- The function `getClusters` of `cmd/mskrc/main.go`. -/
def getClusters (svc : Client) (aliases : GoMap String) : Except Error (List Cluster) :=
  match svc.ListClusters with
  | .error err => .error (.wrap "unable to list clusters" err)
  | .ok infos => getClustersLoop svc aliases infos []

/-! ## `cmd/mskrc/main.go`: flags and the filter step -/

/-- The generic `slicesFilter`: a loop appending the elements that satisfy `f`. -/
def slicesFilter {T : Type} (s : List T) (f : T → Bool) : List T :=
  s.foldl (fun r v => if f v then r ++ [v] else r) []

/-- The method `sliceFlag.Set`: append the value unless it is already present; never fails. -/
def sliceFlag.Set (s : List String) (value : String) : List String × Option Error :=
  if ¬ s.contains value then (s ++ [value], none) else (s, none)

/-- The filter step shared by the three `Exec` bodies:
`if len(flagClusters) != 0 { clusters = slicesFilter(clusters, ...) }`. -/
def filterStep (flagClusters : List String) (clusters : List Cluster) : List Cluster :=
  if flagClusters.length ≠ 0 then
    slicesFilter clusters (fun c => flagClusters.contains c.Name)
  else clusters

/-- The method `pairFlag.Set`: the table afterwards and the returned error. -/
def pairFlag.Set (h : GoMap String) (value : String) : GoMap String × Option Error :=
  let kv := strings.SplitN value ':' 2
  match kv with
  | [k, v] => (h.set k v, none)
  | _ => (h, some (.base ("invalid pair: " ++ value)))

/-! ## `internal/kafconfig/config.go` (Format A) -/

namespace kafconfig

/-- The fields of kaf's `config.Cluster` that `New` sets; every other field keeps its zero
value. -/
structure KafCluster where
  Name : String
  Brokers : List String
  Version : String
deriving DecidableEq, Repr

/-- The field of kaf's `config.Config` that `New` sets. -/
structure KafConfig where
  Clusters : List KafCluster
deriving DecidableEq, Repr

/-- The constructor `kafconfig.New` (the wrapper `Config{cfg: ...}` is left implicit). -/
def New (clusters : List Cluster) : KafConfig :=
  { Clusters := clusters.foldl
      (fun clustercfgs c =>
        let name := if c.Alias ≠ "" then c.Alias else c.Name
        clustercfgs ++ [{ Name := name, Brokers := c.Brokers, Version := c.Version }])
      [] }

/-- The method `Config.Marshal`: the encoder writes into a fresh buffer; on error the buffer is
dropped and the error wrapped, otherwise the buffer is returned. -/
def Marshal (encode : KafConfig → String × Option Error) (c : KafConfig) :
    Except Error String :=
  match encode c with
  | (_, some err) => .error (.wrap "yaml encode" err)
  | (buf, none) => .ok buf

end kafconfig

/-! ## `internal/kafkactlconfig/config.go` (Format C) -/

namespace kafkactlconfig

/-- The struct `kafkactlContext`. -/
structure kafkactlContext where
  Brokers : List String
deriving DecidableEq, Repr

/-- The struct `KafkactlConfig`. -/
structure KafkactlConfig where
  Contexts : GoMap kafkactlContext
  CurrentContext : String
deriving DecidableEq, Repr

/-- The constructor `kafkactlconfig.New`; `CurrentContext` is not set and keeps the zero value of
a Go string. -/
def New (clusters : List Cluster) : KafkactlConfig :=
  { Contexts := clusters.foldl
      (fun contexts c =>
        let name := if c.Alias ≠ "" then c.Alias else c.Name
        contexts.set name { Brokers := c.Brokers })
      [],
    CurrentContext := "" }

/-- The method `Config.Marshal` of `kafkactlconfig`. -/
def Marshal (encode : KafkactlConfig → String × Option Error) (c : KafkactlConfig) :
    Except Error String :=
  match encode c with
  | (_, some err) => .error (.wrap "yaml encode" err)
  | (buf, none) => .ok buf

end kafkactlconfig

/-! ## `internal/kclconfig/config.go` (Format B) -/

namespace kclconfig

/-- The fields of kcl's `client.Cfg` that `New` sets; every other field keeps its zero value. -/
structure KclConfig where
  SeedBrokers : List String
  TimeoutMillis : Int
deriving DecidableEq, Repr

/-- The struct `kclconfig.Config`. -/
structure Config where
  cfg : KclConfig
  cluster : Cluster
deriving DecidableEq, Repr

/-- The method `Config.Marshal` of `kclconfig`: the preamble line is printed into the buffer with
`fmt.Fprintln`, the encoder writes after it; on error the buffer is dropped and the encoder's
error returned as it is. -/
def Marshal (encode : KclConfig → String × Option Error) (c : Config) : Except Error String :=
  let preamble :=
    if c.cluster.Alias ≠ "" then
      "# name: " ++ c.cluster.Name ++ ", alias: " ++ c.cluster.Alias
    else
      "# name: " ++ c.cluster.Name
  let buf := preamble ++ "\n"
  match encode c.cfg with
  | (_, some err) => .error err
  | (written, none) => .ok (buf ++ written)

/-- The constructor `kclconfig.New`. -/
def New (clusters : List Cluster) : List Config :=
  clusters.foldl
    (fun configs c =>
      configs ++ [{ cfg := { SeedBrokers := c.Brokers, TimeoutMillis := 10000 },
                    cluster := c }])
    []

end kclconfig

/-! ## `cmd/mskrc/main.go`: the three `Exec` bodies

Each body is split where the resolved cluster list is complete: `…Emit` is the part from the
emitter's construction to the return, `…Exec` the whole body after the SDK configuration has
been loaded. The result is the output stream afterwards and the returned error. -/

/-- The end of the `kaf` body: `kafconfig.New`, `Marshal`, one `fmt.Fprintln(out, ...)`. -/
def kafEmit (encode : kafconfig.KafConfig → String × Option Error)
    (clusters : List Cluster) (out : String) : String × Option Error :=
  let cfg := kafconfig.New clusters
  match kafconfig.Marshal encode cfg with
  | .error err => (out, some (.wrap "marshal" err))
  | .ok b => (out ++ (b ++ "\n"), none)

/-- The `for _, cfg := range cfgs` loop of the `kcl` body. -/
def kclEmitLoop (encode : kclconfig.KclConfig → String × Option Error) :
    List kclconfig.Config → String → String × Option Error
  | [], out => (out, none)
  | cfg :: rest, out =>
    match kclconfig.Marshal encode cfg with
    | .error err => (out, some (.wrap "marshal" err))
    | .ok b => kclEmitLoop encode rest (out ++ (b ++ "\n"))

/-- The end of the `kcl` body: `kclconfig.New`, then per document `Marshal` and one
`fmt.Fprintln(out, ...)`. -/
def kclEmit (encode : kclconfig.KclConfig → String × Option Error)
    (clusters : List Cluster) (out : String) : String × Option Error :=
  kclEmitLoop encode (kclconfig.New clusters) out

/-- The end of the `kafkactl` body: `kafkactlconfig.New`, `Marshal`, one
`fmt.Fprintln(out, ...)`. -/
def kafkactlEmit (encode : kafkactlconfig.KafkactlConfig → String × Option Error)
    (clusters : List Cluster) (out : String) : String × Option Error :=
  let cfg := kafkactlconfig.New clusters
  match kafkactlconfig.Marshal encode cfg with
  | .error err => (out, some (.wrap "marshal" err))
  | .ok b => (out ++ (b ++ "\n"), none)

/-- The `Exec` of the `kaf` subcommand. -/
def kafExec (svc : Client) (encode : kafconfig.KafConfig → String × Option Error)
    (flagAliases : GoMap String) (flagClusters : List String) (out : String) :
    String × Option Error :=
  match getClusters svc flagAliases with
  | .error err => (out, some (.wrap "unable to get clusters" err))
  | .ok clusters => kafEmit encode (filterStep flagClusters clusters) out

/-- The `Exec` of the `kcl` subcommand. -/
def kclExec (svc : Client) (encode : kclconfig.KclConfig → String × Option Error)
    (flagAliases : GoMap String) (flagClusters : List String) (out : String) :
    String × Option Error :=
  match getClusters svc flagAliases with
  | .error err => (out, some (.wrap "unable to get clusters" err))
  | .ok clusters => kclEmit encode (filterStep flagClusters clusters) out

/-- The `Exec` of the `kafkactl` subcommand. -/
def kafkactlExec (svc : Client)
    (encode : kafkactlconfig.KafkactlConfig → String × Option Error)
    (flagAliases : GoMap String) (flagClusters : List String) (out : String) :
    String × Option Error :=
  match getClusters svc flagAliases with
  | .error err => (out, some (.wrap "unable to get clusters" err))
  | .ok clusters => kafkactlEmit encode (filterStep flagClusters clusters) out

/-! ## `main.go`: the legacy entry point -/

namespace Legacy

/-- The struct `cluster` of the legacy program. -/
structure cluster where
  name : String
  brokers : List String
  version : String
deriving DecidableEq, Repr

/-- The loop of the legacy `getClusters`: the alias replaces the name when the key is present
(`if a, ok := aliases[...]; ok`). A failed broker request is wrapped as in the current
program, the pointer `ci.ClusterArn` printed with `%v`. -/
def getClustersLoop (svc : Client) (aliases : GoMap String) :
    List ClusterInfo → List cluster → Except Error (List cluster)
  | [], clusters => .ok clusters
  | ci :: rest, clusters =>
    match svc.GetBootstrapBrokers ci.ClusterArn with
    | .error err => .error (.wrap ("arn: " ++ ci.ClusterArnAddr) err)
    | .ok bootstrapout =>
      let name :=
        match aliases.get ci.ClusterName with
        | some a => a
        | none => ci.ClusterName
      getClustersLoop svc aliases rest
        (clusters ++ [{ name := name,
                        brokers := strings.Split bootstrapout ',',
                        version := ci.KafkaVersion }])

/-- The legacy function `getClusters`. -/
def getClusters (svc : Client) (aliases : GoMap String) : Except Error (List cluster) :=
  match svc.ListClusters with
  | .error err => .error (.wrap "unable to list clusters" err)
  | .ok infos => getClustersLoop svc aliases infos []

/-- The legacy function `newKafConfig`; it fills the same kaf `config.Config`. -/
def newKafConfig (clusters : List cluster) : kafconfig.KafConfig :=
  { Clusters := clusters.foldl
      (fun clustercfgs c =>
        clustercfgs ++ [{ Name := c.name, Brokers := c.brokers, Version := c.version }])
      [] }

/-- The method `pairFlag.Set` of the legacy program, the same text as the current one. -/
def pairFlag.Set (h : GoMap String) (value : String) : GoMap String × Option Error :=
  let kv := strings.SplitN value ':' 2
  match kv with
  | [k, v] => (h.set k v, none)
  | _ => (h, some (.base ("invalid pair: " ++ value)))

end Legacy

/-! ## Names used to state the properties -/

/-- The name selection written inline in `kafconfig.New` and in `kafkactlconfig.New`: the alias
when it is not the empty string, the name otherwise. -/
def displayName (c : Cluster) : String :=
  if c.Alias ≠ "" then c.Alias else c.Name

/-- The record `getClusters` builds for one listed cluster whose bootstrap broker string is
`bootstrapout`. -/
def resolveOne (aliases : GoMap String) (ci : ClusterInfo) (bootstrapout : String) : Cluster :=
  { Name := ci.ClusterName,
    Alias := (aliases.get ci.ClusterName).getD "",
    Brokers := strings.Split bootstrapout ',',
    Version := ci.KafkaVersion }

/-- The bootstrap broker string the client answers for an ARN (empty when the request
fails). -/
def brokerStringOf (svc : Client) (arn : String) : String :=
  match svc.GetBootstrapBrokers arn with
  | .ok b => b
  | .error _ => ""

/-- The records `getClusters` builds for a listing, when every broker request succeeds. -/
def resolveAll (svc : Client) (aliases : GoMap String) (infos : List ClusterInfo) :
    List Cluster :=
  infos.map (fun ci => resolveOne aliases ci (brokerStringOf svc ci.ClusterArn))

/-- The records the legacy `getClusters` builds for a listing, when every broker request
succeeds. -/
def legacyResolveAll (svc : Client) (aliases : GoMap String) (infos : List ClusterInfo) :
    List Legacy.cluster :=
  infos.map (fun ci =>
    { name :=
        match aliases.get ci.ClusterName with
        | some a => a
        | none => ci.ClusterName,
      brokers := strings.Split (brokerStringOf svc ci.ClusterArn) ',',
      version := ci.KafkaVersion })

/-- The output stream after the documents `docs` have been printed to it in order, each with
`fmt.Fprintln`. -/
def printAll (out : String) (docs : List String) : String :=
  docs.foldl (fun o d => o ++ (d ++ "\n")) out

/-! ## Directory listings used as concrete inputs -/

/-- A directory with the single cluster `prod-1` of the specification's scenarios. -/
def svcOne : Client :=
  { ListClusters := .ok [⟨"arn-1", "prod-1", "3.5.1", "0xc000012340"⟩],
    GetBootstrapBrokers := fun _ => .ok "b1:9092,b2:9092" }

/-- A directory with the two clusters `prod-1` and `staging`. -/
def svcTwo : Client :=
  { ListClusters := .ok [⟨"arn-1", "prod-1", "3.5.1", "0xc000012340"⟩, ⟨"arn-2", "staging", "3.6.0", "0xc000012350"⟩],
    GetBootstrapBrokers := fun arn => if arn = "arn-1" then .ok "b1:9092" else .ok "b2:9092" }

/-- A TOML encoder that refuses the configuration whose seed brokers are `["b2:9092"]` and
writes the text `ok` for every other one. -/
def encodeRefusingSecond (c : kclconfig.KclConfig) : String × Option Error :=
  if c.SeedBrokers = ["b2:9092"] then ("", some (.base "refused")) else ("ok", none)

/-! ## Lemmas on Go maps -/

namespace GoMap

theorem get_cons {V : Type} (k' : String) (v : V) (m : GoMap V) (k : String) :
    get ((k', v) :: m) k = if k' = k then some v else get m k := rfl

theorem get_filter_ne {V : Type} (m : GoMap V) (k k' : String) (hne : k' ≠ k) :
    get (m.filter (fun p => decide (p.1 ≠ k))) k' = get m k' := by
  induction m with
  | nil => rfl
  | cons p m ih =>
    obtain ⟨a, v⟩ := p
    by_cases ha : a = k
    · have hak : a ≠ k' := fun h => hne (ha ▸ h.symm)
      rw [List.filter_cons_of_neg (by simp [ha]), ih, get_cons, if_neg hak]
    · rw [List.filter_cons_of_pos (by simp [ha]), get_cons, get_cons, ih]

theorem get_set_self {V : Type} (m : GoMap V) (k : String) (v : V) :
    get (m.set k v) k = some v := by
  simp [set, get_cons]

theorem get_set_ne {V : Type} (m : GoMap V) (k k' : String) (v : V) (hne : k' ≠ k) :
    get (m.set k v) k' = get m k' := by
  have hk : k ≠ k' := fun h => hne h.symm
  simp only [set, get_cons, hk, if_false]
  exact get_filter_ne m k k' hne

theorem get_isSome_iff_mem_keys {V : Type} (m : GoMap V) (k : String) :
    (get m k).isSome = true ↔ k ∈ keys m := by
  induction m with
  | nil => simp [get, keys]
  | cons p m ih =>
    obtain ⟨a, v⟩ := p
    by_cases ha : a = k
    · simp [get_cons, keys, ha]
    · have hk : ¬ k = a := fun h => ha h.symm
      simp only [get_cons, ha, if_false, ih]
      simp [keys, hk]

theorem keys_set {V : Type} (m : GoMap V) (k : String) (v : V) :
    keys (m.set k v) = k :: (keys m).filter (fun a => decide (a ≠ k)) := by
  simp only [set, keys, List.map_cons, List.filter_map]
  rfl

theorem keys_nodup_set {V : Type} (m : GoMap V) (k : String) (v : V)
    (hm : (keys m).Nodup) : (keys (m.set k v)).Nodup := by
  rw [keys_set, List.nodup_cons]
  refine ⟨?_, hm.filter _⟩
  simp [List.mem_filter]

theorem mem_keys_set {V : Type} (m : GoMap V) (k k' : String) (v : V) :
    k' ∈ keys (m.set k v) ↔ k' = k ∨ k' ∈ keys m := by
  rw [keys_set]
  by_cases h : k' = k
  · simp [h]
  · simp [List.mem_filter, h]

end GoMap

/-! ## Lemmas on the loops that append -/

theorem foldl_append_singleton {α β : Type} (g : α → β) (p : α → Bool) (s : List α)
    (acc : List β) :
    s.foldl (fun r v => if p v then r ++ [g v] else r) acc
      = acc ++ (s.filter p).map g := by
  induction s generalizing acc with
  | nil => simp
  | cons a s ih =>
    by_cases h : p a
    · simp [List.foldl, List.filter, h, ih]
    · simp [List.foldl, List.filter, h, ih]

theorem slicesFilter_eq_filter {T : Type} (s : List T) (f : T → Bool) :
    slicesFilter s f = s.filter f := by
  have h := foldl_append_singleton (fun v : T => v) f s []
  simpa [slicesFilter] using h

theorem foldl_append_map {α β : Type} (g : α → β) (s : List α) (acc : List β) :
    s.foldl (fun r v => r ++ [g v]) acc = acc ++ s.map g := by
  induction s generalizing acc with
  | nil => simp
  | cons a s ih => simp [List.foldl, ih]

/-! ## Lemmas on the emitters' constructors -/

theorem kafconfig_New_eq_map (cs : List Cluster) :
    (kafconfig.New cs).Clusters
      = cs.map (fun c => { Name := displayName c, Brokers := c.Brokers,
                           Version := c.Version }) := by
  have h := foldl_append_map
    (fun c : Cluster =>
      ({ Name := displayName c, Brokers := c.Brokers, Version := c.Version } :
        kafconfig.KafCluster)) cs []
  simpa [kafconfig.New, displayName] using h

theorem kclconfig_New_eq_map (cs : List Cluster) :
    kclconfig.New cs
      = cs.map (fun c => { cfg := { SeedBrokers := c.Brokers, TimeoutMillis := 10000 },
                           cluster := c }) := by
  have h := foldl_append_map
    (fun c : Cluster =>
      ({ cfg := { SeedBrokers := c.Brokers, TimeoutMillis := 10000 }, cluster := c } :
        kclconfig.Config)) cs []
  simpa [kclconfig.New] using h

theorem filterStep_eq_filter (F : List String) (cs : List Cluster) (hF : F ≠ []) :
    filterStep F cs = cs.filter (fun c => decide (c.Name ∈ F)) := by
  have hlen : F.length ≠ 0 := fun h => hF (List.length_eq_zero.mp h)
  simp only [filterStep, if_pos hlen, slicesFilter_eq_filter]
  congr 1
  funext c
  simp

theorem filterStep_nil (cs : List Cluster) : filterStep [] cs = cs := by
  simp [filterStep]

theorem filterStep_sublist (F : List String) (cs : List Cluster) :
    (filterStep F cs).Sublist cs := by
  by_cases hF : F = []
  · subst hF
    rw [filterStep_nil]
  · rw [filterStep_eq_filter F cs hF]
    exact List.filter_sublist cs

/-! ## The filter step (C2) -/

theorem filterStep_eq_kept (F : List String) (cs : List Cluster) :
    filterStep F cs = if F = [] then cs else cs.filter (fun c => decide (c.Name ∈ F)) := by
  by_cases hF : F = []
  · rw [if_pos hF, hF, filterStep_nil]
  · rw [if_neg hF, filterStep_eq_filter F cs hF]

/-- C2: with a non-empty inclusion list `F` the filter step yields exactly the sub-list of the
resolved list whose `Name` is an element of `F`, in the same relative order (the `Alias` plays
no part); with an empty `F` it yields the resolved list unchanged. That list is the one each
`Exec` body hands to its emitter: whenever `getClusters` returns `cs`, the `kaf`, `kcl` and
`kafkactl` bodies construct their emitter from it, marshal and print. -/
theorem filterStep_spec (F : List String) (cs : List Cluster) :
    (F ≠ [] → filterStep F cs = cs.filter (fun c => decide (c.Name ∈ F))) ∧
    (F = [] → filterStep F cs = cs) ∧
    (filterStep F cs).Sublist cs ∧
    (∀ (svc : Client) (A : GoMap String) (out : String), getClusters svc A = .ok cs →
      (∀ encode : kafconfig.KafConfig → String × Option Error,
        kafExec svc encode A F out
          = match kafconfig.Marshal encode (kafconfig.New
              (if F = [] then cs else cs.filter (fun c => decide (c.Name ∈ F)))) with
            | .error err => (out, some (.wrap "marshal" err))
            | .ok b => (out ++ (b ++ "\n"), none)) ∧
      (∀ encode : kclconfig.KclConfig → String × Option Error,
        kclExec svc encode A F out
          = kclEmitLoop encode (kclconfig.New
              (if F = [] then cs else cs.filter (fun c => decide (c.Name ∈ F)))) out) ∧
      (∀ encode : kafkactlconfig.KafkactlConfig → String × Option Error,
        kafkactlExec svc encode A F out
          = match kafkactlconfig.Marshal encode (kafkactlconfig.New
              (if F = [] then cs else cs.filter (fun c => decide (c.Name ∈ F)))) with
            | .error err => (out, some (.wrap "marshal" err))
            | .ok b => (out ++ (b ++ "\n"), none))) := by
  refine ⟨filterStep_eq_filter F cs, fun h => h ▸ filterStep_nil cs, filterStep_sublist F cs,
    ?_⟩
  intro svc A out hg
  have hk := filterStep_eq_kept F cs
  refine ⟨?_, ?_, ?_⟩
  · intro encode
    unfold kafExec
    rw [hg]
    simp only []
    unfold kafEmit
    rw [hk]
  · intro encode
    unfold kclExec
    rw [hg]
    simp only []
    unfold kclEmit
    rw [hk]
  · intro encode
    unfold kafkactlExec
    rw [hg]
    simp only []
    unfold kafkactlEmit
    rw [hk]

/-- The filter `{"staging"}` on the listing `[prod-1, staging]`, where `prod-1` carries the
alias `staging`: only the cluster named `staging` is kept, and it is the only document the
`kcl` body prints and the only entry the `kaf` body encodes; the empty filter keeps both. -/
theorem filterStep_spec_witness :
    filterStep ["staging"]
        [⟨"prod-1", "staging", ["b1:9092"], "3.5.1"⟩, ⟨"staging", "", ["b2:9092"], "3.6.0"⟩]
      = [⟨"staging", "", ["b2:9092"], "3.6.0"⟩] ∧
    filterStep []
        [⟨"prod-1", "staging", ["b1:9092"], "3.5.1"⟩, ⟨"staging", "", ["b2:9092"], "3.6.0"⟩]
      = [⟨"prod-1", "staging", ["b1:9092"], "3.5.1"⟩, ⟨"staging", "", ["b2:9092"], "3.6.0"⟩] ∧
    kclExec svcTwo (fun _ => ("ok", none)) [("prod-1", "staging")] ["staging"] ""
      = ("# name: staging\nok\n", none) ∧
    kafExec svcTwo
        (fun c => (String.intercalate "," (c.Clusters.map (fun e => e.Name)), none))
        [("prod-1", "staging")] ["staging"] ""
      = ("staging\n", none) :=
  ⟨((filterStep_spec ["staging"]
        [⟨"prod-1", "staging", ["b1:9092"], "3.5.1"⟩,
         ⟨"staging", "", ["b2:9092"], "3.6.0"⟩]).1 (by decide)).trans (by decide),
   (filterStep_spec []
        [⟨"prod-1", "staging", ["b1:9092"], "3.5.1"⟩,
         ⟨"staging", "", ["b2:9092"], "3.6.0"⟩]).2.1 rfl,
   (((filterStep_spec ["staging"]
        [⟨"prod-1", "staging", ["b1:9092"], "3.5.1"⟩,
         ⟨"staging", "", ["b2:9092"], "3.6.0"⟩]).2.2.2
        svcTwo [("prod-1", "staging")] "" rfl).2.1 (fun _ => ("ok", none))).trans rfl,
   (((filterStep_spec ["staging"]
        [⟨"prod-1", "staging", ["b1:9092"], "3.5.1"⟩,
         ⟨"staging", "", ["b2:9092"], "3.6.0"⟩]).2.2.2
        svcTwo [("prod-1", "staging")] "" rfl).1
        (fun c => (String.intercalate "," (c.Clusters.map (fun e => e.Name)), none))).trans
      rfl⟩

/-! ## Format A (C4) -/

/-- C4: the `Clusters` list built by `kafconfig.New` has the length of the input and its
`i`-th entry carries the display name of the `i`-th cluster and that cluster's `Brokers` and
`Version` unchanged; nothing is dropped, merged or reordered. -/
theorem kafconfig_New_spec (cs : List Cluster) :
    (kafconfig.New cs).Clusters.length = cs.length ∧
    (∀ i : Nat, (kafconfig.New cs).Clusters[i]?
      = (cs[i]?).map (fun c => { Name := displayName c, Brokers := c.Brokers,
                                 Version := c.Version })) ∧
    (kafconfig.New cs).Clusters
      = cs.map (fun c => { Name := displayName c, Brokers := c.Brokers,
                           Version := c.Version }) := by
  refine ⟨?_, ?_, kafconfig_New_eq_map cs⟩
  · rw [kafconfig_New_eq_map, List.length_map]
  · intro i
    rw [kafconfig_New_eq_map, List.getElem?_map]

/-! ## Format B (C7, C8) -/

/-- C7: `kclconfig.New` returns one `Config` per cluster, in input order; the `i`-th one has
`SeedBrokers` equal to the `Brokers` of the `i`-th cluster, `TimeoutMillis` equal to `10000`,
and the `i`-th cluster itself as its cluster record. -/
theorem kclconfig_New_spec (cs : List Cluster) :
    (kclconfig.New cs).length = cs.length ∧
    (∀ i : Nat, (kclconfig.New cs)[i]?
      = (cs[i]?).map (fun c => { cfg := { SeedBrokers := c.Brokers, TimeoutMillis := 10000 },
                                 cluster := c })) := by
  refine ⟨?_, ?_⟩
  · rw [kclconfig_New_eq_map, List.length_map]
  · intro i
    rw [kclconfig_New_eq_map, List.getElem?_map]

/-- C8: when the structured encoding succeeds with output `w`, `Marshal` returns the first
line, a newline and then exactly `w`, where the first line is `# name: <Name>` for a cluster
whose `Alias` is empty and `# name: <Name>, alias: <Alias>` otherwise; when the encoding fails
`Marshal` returns the encoder's error and no bytes. -/
theorem kclconfig_Marshal_spec (encode : kclconfig.KclConfig → String × Option Error)
    (c : kclconfig.Config) :
    (∀ w : String, encode c.cfg = (w, none) → c.cluster.Alias = "" →
      kclconfig.Marshal encode c = .ok (("# name: " ++ c.cluster.Name) ++ "\n" ++ w)) ∧
    (∀ w : String, encode c.cfg = (w, none) → c.cluster.Alias ≠ "" →
      kclconfig.Marshal encode c
        = .ok (("# name: " ++ c.cluster.Name ++ ", alias: " ++ c.cluster.Alias) ++ "\n" ++ w)) ∧
    (∀ (w : String) (err : Error), encode c.cfg = (w, some err) →
      kclconfig.Marshal encode c = .error err) := by
  refine ⟨?_, ?_, ?_⟩
  · intro w hw ha
    simp [kclconfig.Marshal, hw, ha]
  · intro w hw ha
    simp [kclconfig.Marshal, hw, ha]
  · intro w err hw
    simp [kclconfig.Marshal, hw]

/-- The three cases of `Marshal` on concrete documents: no alias, an alias, a failing
encoder. -/
theorem kclconfig_Marshal_spec_witness :
    kclconfig.Marshal (fun _ => ("seed_brokers = [\"b1:9092\"]\n", none))
        ⟨⟨["b1:9092"], 10000⟩, ⟨"prod-1", "", ["b1:9092"], "3.5.1"⟩⟩
      = .ok "# name: prod-1\nseed_brokers = [\"b1:9092\"]\n" ∧
    kclconfig.Marshal (fun _ => ("seed_brokers = [\"b1:9092\"]\n", none))
        ⟨⟨["b1:9092"], 10000⟩, ⟨"prod-1", "production", ["b1:9092"], "3.5.1"⟩⟩
      = .ok "# name: prod-1, alias: production\nseed_brokers = [\"b1:9092\"]\n" ∧
    kclconfig.Marshal (fun _ => ("seed_", some (.base "refused")))
        ⟨⟨["b1:9092"], 10000⟩, ⟨"prod-1", "production", ["b1:9092"], "3.5.1"⟩⟩
      = .error (.base "refused") :=
  ⟨((kclconfig_Marshal_spec (fun _ => ("seed_brokers = [\"b1:9092\"]\n", none))
        ⟨⟨["b1:9092"], 10000⟩, ⟨"prod-1", "", ["b1:9092"], "3.5.1"⟩⟩).1
        "seed_brokers = [\"b1:9092\"]\n" rfl rfl).trans rfl,
   ((kclconfig_Marshal_spec (fun _ => ("seed_brokers = [\"b1:9092\"]\n", none))
        ⟨⟨["b1:9092"], 10000⟩, ⟨"prod-1", "production", ["b1:9092"], "3.5.1"⟩⟩).2.1
        "seed_brokers = [\"b1:9092\"]\n" rfl (by decide)).trans rfl,
   (kclconfig_Marshal_spec (fun _ => ("seed_", some (.base "refused")))
        ⟨⟨["b1:9092"], 10000⟩, ⟨"prod-1", "production", ["b1:9092"], "3.5.1"⟩⟩).2.2
        "seed_" (.base "refused") rfl⟩

/-! ## Lemmas on discovery -/

theorem getClustersLoop_of_ok (svc : Client) (A : GoMap String) (infos : List ClusterInfo)
    (acc : List Cluster)
    (hb : ∀ ci ∈ infos, ∃ b, svc.GetBootstrapBrokers ci.ClusterArn = .ok b) :
    getClustersLoop svc A infos acc = .ok (acc ++ resolveAll svc A infos) := by
  induction infos generalizing acc with
  | nil => simp [getClustersLoop, resolveAll]
  | cons ci rest ih =>
    obtain ⟨b, hbi⟩ := hb ci (List.mem_cons_self ci rest)
    have hrest : ∀ cj ∈ rest, ∃ b, svc.GetBootstrapBrokers cj.ClusterArn = .ok b :=
      fun cj hj => hb cj (List.mem_cons_of_mem ci hj)
    simp only [getClustersLoop, hbi]
    rw [ih _ hrest]
    simp [resolveAll, resolveOne, brokerStringOf, hbi]

theorem getClusters_of_ok (svc : Client) (A : GoMap String) (infos : List ClusterInfo)
    (hl : svc.ListClusters = .ok infos)
    (hb : ∀ ci ∈ infos, ∃ b, svc.GetBootstrapBrokers ci.ClusterArn = .ok b) :
    getClusters svc A = .ok (resolveAll svc A infos) := by
  simp only [getClusters, hl]
  rw [getClustersLoop_of_ok svc A infos [] hb]
  simp

theorem resolveAll_map_Name (svc : Client) (A : GoMap String) (infos : List ClusterInfo) :
    (resolveAll svc A infos).map (fun c => c.Name) = infos.map (fun ci => ci.ClusterName) := by
  simp [resolveAll, resolveOne, Function.comp_def]

theorem displayName_resolveOne (A : GoMap String) (ci : ClusterInfo) (b : String) :
    displayName (resolveOne A ci b)
      = match A.get ci.ClusterName with
        | some a => if a ≠ "" then a else ci.ClusterName
        | none => ci.ClusterName := by
  cases h : A.get ci.ClusterName with
  | none => simp [displayName, resolveOne, h]
  | some a => simp [displayName, resolveOne, h]

/-! ## Lemmas on Format C -/

theorem kafkactlconfig_New_snoc (cs : List Cluster) (c : Cluster) :
    (kafkactlconfig.New (cs ++ [c])).Contexts
      = (kafkactlconfig.New cs).Contexts.set (displayName c) { Brokers := c.Brokers } := by
  simp [kafkactlconfig.New, List.foldl_append, displayName]

theorem kafkactlconfig_mem_keys (cs : List Cluster) (k : String) :
    k ∈ (kafkactlconfig.New cs).Contexts.keys ↔ ∃ c ∈ cs, displayName c = k := by
  induction cs using List.reverseRecOn with
  | nil => simp [kafkactlconfig.New, GoMap.keys]
  | append_singleton cs c ih =>
    rw [kafkactlconfig_New_snoc, GoMap.mem_keys_set, ih]
    constructor
    · rintro (h | ⟨d, hd, hk⟩)
      · exact ⟨c, by simp, h.symm⟩
      · exact ⟨d, by simp [hd], hk⟩
    · rintro ⟨d, hd, hk⟩
      rcases List.mem_append.mp hd with h | h
      · exact Or.inr ⟨d, h, hk⟩
      · have hdc : d = c := by simpa using h
        exact Or.inl (by rw [← hk, hdc])

theorem kafkactlconfig_keys_nodup (cs : List Cluster) :
    (kafkactlconfig.New cs).Contexts.keys.Nodup := by
  induction cs using List.reverseRecOn with
  | nil => simp [kafkactlconfig.New, GoMap.keys]
  | append_singleton cs c ih =>
    rw [kafkactlconfig_New_snoc]
    exact GoMap.keys_nodup_set _ _ _ ih

theorem kafkactlconfig_get_last (pre post : List Cluster) (c : Cluster)
    (hpost : ∀ d ∈ post, displayName d ≠ displayName c) :
    (kafkactlconfig.New (pre ++ c :: post)).Contexts.get (displayName c)
      = some { Brokers := c.Brokers } := by
  induction post using List.reverseRecOn with
  | nil =>
    rw [kafkactlconfig_New_snoc]
    exact GoMap.get_set_self _ _ _
  | append_singleton post d ih =>
    have hd : displayName d ≠ displayName c := hpost d (by simp)
    have hrest : ∀ e ∈ post, displayName e ≠ displayName c :=
      fun e he => hpost e (by simp [he])
    have hsplit : pre ++ c :: (post ++ [d]) = (pre ++ c :: post) ++ [d] := by simp
    rw [hsplit, kafkactlconfig_New_snoc, GoMap.get_set_ne _ _ _ _ (fun h => hd h.symm)]
    exact ih hrest

/-! ## Format C (C3) -/

/-- C3: for every cluster list the `Contexts` map built by `kafkactlconfig.New` has a key `k`
exactly when some cluster of the list has display name `k`, each key is bound once, the value
at `k` holds the `Brokers` of the last cluster in input order whose display name is `k`, and
`CurrentContext` is the empty string. In particular two clusters both aliased to `"x"` yield
the map with the single entry `"x"`, carrying the brokers of the later one. -/
theorem kafkactlconfig_New_spec :
    (∀ cs : List Cluster,
      (∀ k : String, k ∈ (kafkactlconfig.New cs).Contexts.keys ↔ ∃ c ∈ cs, displayName c = k) ∧
      (∀ k : String, ((kafkactlconfig.New cs).Contexts.get k).isSome = true
        ↔ ∃ c ∈ cs, displayName c = k) ∧
      (kafkactlconfig.New cs).Contexts.keys.Nodup ∧
      (∀ (pre post : List Cluster) (c : Cluster), cs = pre ++ c :: post →
        (∀ d ∈ post, displayName d ≠ displayName c) →
        (kafkactlconfig.New cs).Contexts.get (displayName c) = some { Brokers := c.Brokers }) ∧
      (kafkactlconfig.New cs).CurrentContext = "") ∧
    (∀ ca cb : Cluster, ca.Alias = "x" → cb.Alias = "x" →
      (kafkactlconfig.New [ca, cb]).Contexts = [("x", { Brokers := cb.Brokers })]) := by
  refine ⟨fun cs => ⟨kafkactlconfig_mem_keys cs, ?_, kafkactlconfig_keys_nodup cs, ?_, rfl⟩, ?_⟩
  · intro k
    rw [GoMap.get_isSome_iff_mem_keys]
    exact kafkactlconfig_mem_keys cs k
  · intro pre post c hcs hpost
    rw [hcs]
    exact kafkactlconfig_get_last pre post c hpost
  · intro ca cb ha hb
    simp [kafkactlconfig.New, GoMap.set, ha, hb]

/-- The collision of the specification: identifiers `a` and `b`, both aliased to `"x"`. -/
theorem kafkactlconfig_New_spec_witness :
    (kafkactlconfig.New
        [⟨"a", "x", ["a1:9092"], "3.5.1"⟩, ⟨"b", "x", ["b1:9092"], "3.5.1"⟩]).Contexts.get "x"
      = some { Brokers := ["b1:9092"] } ∧
    (kafkactlconfig.New
        [⟨"a", "x", ["a1:9092"], "3.5.1"⟩, ⟨"b", "x", ["b1:9092"], "3.5.1"⟩]).Contexts
      = [("x", { Brokers := ["b1:9092"] })] :=
  ⟨(kafkactlconfig_New_spec.1
      [⟨"a", "x", ["a1:9092"], "3.5.1"⟩, ⟨"b", "x", ["b1:9092"], "3.5.1"⟩]).2.2.2.1
      [⟨"a", "x", ["a1:9092"], "3.5.1"⟩] [] ⟨"b", "x", ["b1:9092"], "3.5.1"⟩ rfl
      (fun _ hd => absurd hd (List.not_mem_nil _)),
   kafkactlconfig_New_spec.2
      ⟨"a", "x", ["a1:9092"], "3.5.1"⟩ ⟨"b", "x", ["b1:9092"], "3.5.1"⟩ rfl rfl⟩

/-! ## Alias resolution (C1) -/

/-- C1, the claim as worded fails: with the alias table `{"prod-1": ""}` (the flag value
`prod-1:`) the identifier `prod-1` is a key of the table, yet the name selected for the
cluster by `kafconfig.New` and by `kafkactlconfig.New` is `prod-1`, not the alias `""`. -/
theorem displayName_empty_alias_counterexample :
    GoMap.get [("prod-1", "")] "prod-1" = some "" ∧
    getClusters svcOne [("prod-1", "")]
      = .ok [⟨"prod-1", "", ["b1:9092", "b2:9092"], "3.5.1"⟩] ∧
    (kafconfig.New [⟨"prod-1", "", ["b1:9092", "b2:9092"], "3.5.1"⟩]).Clusters.map
        (fun e => e.Name) = ["prod-1"] ∧
    (kafkactlconfig.New [⟨"prod-1", "", ["b1:9092", "b2:9092"], "3.5.1"⟩]).Contexts.keys
      = ["prod-1"] ∧
    ("prod-1" : String) ≠ "" := by
  refine ⟨rfl, rfl, rfl, rfl, by decide⟩

/-- C1 (amended): when the listing and every broker request succeed, `getClusters` returns one
record per listed cluster, in order, named by the identifier; the name `kafconfig.New` gives
the `i`-th cluster, and the keys `kafkactlconfig.New` uses, are the alias `A[identifier]`
exactly as it is when the identifier is a key of `A` with a non-empty alias, and the identifier
when it is not a key of `A` or its alias is the empty string. -/
theorem displayName_pipeline (svc : Client) (A : GoMap String) (infos : List ClusterInfo)
    (hl : svc.ListClusters = .ok infos)
    (hb : ∀ ci ∈ infos, ∃ b, svc.GetBootstrapBrokers ci.ClusterArn = .ok b) :
    ∃ cs, getClusters svc A = .ok cs ∧
      cs.map (fun c => c.Name) = infos.map (fun ci => ci.ClusterName) ∧
      (kafconfig.New cs).Clusters.map (fun e => e.Name)
        = infos.map (fun ci =>
            match A.get ci.ClusterName with
            | some a => if a ≠ "" then a else ci.ClusterName
            | none => ci.ClusterName) ∧
      (∀ k : String, k ∈ (kafkactlconfig.New cs).Contexts.keys ↔
        ∃ ci ∈ infos,
          (match A.get ci.ClusterName with
            | some a => if a ≠ "" then a else ci.ClusterName
            | none => ci.ClusterName) = k) := by
  refine ⟨resolveAll svc A infos, getClusters_of_ok svc A infos hl hb,
    resolveAll_map_Name svc A infos, ?_, ?_⟩
  · rw [kafconfig_New_eq_map]
    simp only [resolveAll, List.map_map]
    apply List.map_congr_left
    intro ci _
    exact displayName_resolveOne A ci _
  · intro k
    rw [kafkactlconfig_mem_keys]
    constructor
    · rintro ⟨c, hc, hk⟩
      obtain ⟨ci, hci, rfl⟩ := List.mem_map.mp hc
      exact ⟨ci, hci, by rw [← displayName_resolveOne A ci _]; exact hk⟩
    · rintro ⟨ci, hci, hk⟩
      exact ⟨_, List.mem_map.mpr ⟨ci, hci, rfl⟩, by rw [displayName_resolveOne]; exact hk⟩

/-- The scenario of the specification: `prod-1` with the alias table
`{"prod-1": "production"}`. -/
theorem displayName_pipeline_witness :
    ∃ cs, getClusters svcOne [("prod-1", "production")] = .ok cs ∧
      cs.map (fun c => c.Name) = ["prod-1"] ∧
      (kafconfig.New cs).Clusters.map (fun e => e.Name) = ["production"] ∧
      (∀ k : String, k ∈ (kafkactlconfig.New cs).Contexts.keys ↔
        ∃ ci ∈ [(⟨"arn-1", "prod-1", "3.5.1", "0xc000012340"⟩ : ClusterInfo)],
          (match GoMap.get [("prod-1", "production")] ci.ClusterName with
            | some a => if a ≠ "" then a else ci.ClusterName
            | none => ci.ClusterName) = k) :=
  displayName_pipeline svcOne [("prod-1", "production")] [⟨"arn-1", "prod-1", "3.5.1", "0xc000012340"⟩] rfl
    (fun _ _ => ⟨"b1:9092,b2:9092", rfl⟩)

/-! ## One record per identifier (C9) -/

/-- C9: for every listing of the directory service (its identifiers are unique within one
discovery pass, and the listing and every broker request succeed), every alias table and every
inclusion filter, the list produced by alias resolution in `getClusters` followed by the filter
step holds at most one record per `Name`. The pipeline never adds a record: for every name the
output holds at most as many records as the listing has clusters of that name. -/
theorem resolved_names_nodup (svc : Client) (A : GoMap String) (F : List String)
    (infos : List ClusterInfo)
    (hl : svc.ListClusters = .ok infos)
    (hb : ∀ ci ∈ infos, ∃ b, svc.GetBootstrapBrokers ci.ClusterArn = .ok b)
    (hn : (infos.map (fun ci => ci.ClusterName)).Nodup) :
    ∃ cs, getClusters svc A = .ok cs ∧
      ((filterStep F cs).map (fun c => c.Name)).Nodup ∧
      (∀ n : String, ((filterStep F cs).map (fun c => c.Name)).count n ≤ 1) ∧
      (∀ n : String, ((filterStep F cs).map (fun c => c.Name)).count n
        ≤ (infos.map (fun ci => ci.ClusterName)).count n) := by
  have hsub : ((filterStep F (resolveAll svc A infos)).map (fun c => c.Name)).Sublist
      (infos.map (fun ci => ci.ClusterName)) := by
    have h := (filterStep_sublist F (resolveAll svc A infos)).map (fun c => c.Name)
    rw [resolveAll_map_Name] at h
    exact h
  have hnd : ((filterStep F (resolveAll svc A infos)).map (fun c => c.Name)).Nodup :=
    hn.sublist hsub
  exact ⟨resolveAll svc A infos, getClusters_of_ok svc A infos hl hb, hnd,
    List.nodup_iff_count_le_one.mp hnd, fun n => hsub.count_le n⟩

/-- The listing `[prod-1, staging]` with an alias and the filter `{"staging"}`. -/
theorem resolved_names_nodup_witness :
    ∃ cs, getClusters svcTwo [("prod-1", "staging")] = .ok cs ∧
      ((filterStep ["staging"] cs).map (fun c => c.Name)).Nodup ∧
      (∀ n : String, ((filterStep ["staging"] cs).map (fun c => c.Name)).count n ≤ 1) ∧
      (∀ n : String, ((filterStep ["staging"] cs).map (fun c => c.Name)).count n
        ≤ (([⟨"arn-1", "prod-1", "3.5.1", "0xc000012340"⟩,
             ⟨"arn-2", "staging", "3.6.0", "0xc000012350"⟩] : List ClusterInfo).map
            (fun ci => ci.ClusterName)).count n) :=
  resolved_names_nodup svcTwo [("prod-1", "staging")] ["staging"]
    [⟨"arn-1", "prod-1", "3.5.1", "0xc000012340"⟩, ⟨"arn-2", "staging", "3.6.0", "0xc000012350"⟩]
    rfl
    (fun ci _ => by
      by_cases h : ci.ClusterArn = "arn-1"
      · exact ⟨"b1:9092", by simp [svcTwo, h]⟩
      · exact ⟨"b2:9092", by simp [svcTwo, h]⟩)
    (by decide)

/-! ## The legacy entry point against the current one (C10) -/

theorem GoMap_get_mem {V : Type} (m : GoMap V) (k : String) (v : V)
    (h : GoMap.get m k = some v) : (k, v) ∈ m := by
  induction m with
  | nil => simp [GoMap.get] at h
  | cons p m ih =>
    obtain ⟨a, w⟩ := p
    by_cases ha : a = k
    · rw [GoMap.get_cons, if_pos ha] at h
      have hw : w = v := by simpa using h
      simp [ha, hw]
    · rw [GoMap.get_cons, if_neg ha] at h
      exact List.mem_cons_of_mem _ (ih h)

theorem kafconfig_New_snoc (cs : List Cluster) (c : Cluster) :
    kafconfig.New (cs ++ [c])
      = { Clusters := (kafconfig.New cs).Clusters
            ++ [{ Name := displayName c, Brokers := c.Brokers, Version := c.Version }] } := by
  simp [kafconfig.New, List.foldl_append, displayName]

theorem Legacy_newKafConfig_snoc (cs : List Legacy.cluster) (c : Legacy.cluster) :
    Legacy.newKafConfig (cs ++ [c])
      = { Clusters := (Legacy.newKafConfig cs).Clusters
            ++ [{ Name := c.name, Brokers := c.brokers, Version := c.version }] } := by
  simp [Legacy.newKafConfig, List.foldl_append]

theorem legacy_name_eq (A : GoMap String) (hA : ∀ p ∈ A, p.2 ≠ "") (ci : ClusterInfo)
    (b : String) :
    (match A.get ci.ClusterName with
      | some a => a
      | none => ci.ClusterName) = displayName (resolveOne A ci b) := by
  rw [displayName_resolveOne]
  cases h : A.get ci.ClusterName with
  | none => rfl
  | some a =>
    have hne : a ≠ "" := hA _ (GoMap_get_mem A _ _ h)
    simp [hne]

theorem Legacy_getClustersLoop_of_ok (svc : Client) (A : GoMap String)
    (infos : List ClusterInfo) (acc : List Legacy.cluster)
    (hb : ∀ ci ∈ infos, ∃ b, svc.GetBootstrapBrokers ci.ClusterArn = .ok b) :
    Legacy.getClustersLoop svc A infos acc = .ok (acc ++ legacyResolveAll svc A infos) := by
  induction infos generalizing acc with
  | nil => simp [Legacy.getClustersLoop, legacyResolveAll]
  | cons ci rest ih =>
    obtain ⟨b, hbi⟩ := hb ci (List.mem_cons_self ci rest)
    have hrest : ∀ cj ∈ rest, ∃ b, svc.GetBootstrapBrokers cj.ClusterArn = .ok b :=
      fun cj hj => hb cj (List.mem_cons_of_mem ci hj)
    simp only [Legacy.getClustersLoop, hbi]
    rw [ih _ hrest]
    simp [legacyResolveAll, brokerStringOf, hbi]

theorem Legacy_getClusters_of_ok (svc : Client) (A : GoMap String) (infos : List ClusterInfo)
    (hl : svc.ListClusters = .ok infos)
    (hb : ∀ ci ∈ infos, ∃ b, svc.GetBootstrapBrokers ci.ClusterArn = .ok b) :
    Legacy.getClusters svc A = .ok (legacyResolveAll svc A infos) := by
  simp only [Legacy.getClusters, hl]
  rw [Legacy_getClustersLoop_of_ok svc A infos [] hb]
  simp

theorem Legacy_newKafConfig_eq_map (cs : List Legacy.cluster) :
    (Legacy.newKafConfig cs).Clusters
      = cs.map (fun c => { Name := c.name, Brokers := c.brokers, Version := c.version }) := by
  have h := foldl_append_map
    (fun c : Legacy.cluster =>
      ({ Name := c.name, Brokers := c.brokers, Version := c.version } :
        kafconfig.KafCluster)) cs []
  simpa [Legacy.newKafConfig] using h

theorem KafConfig_eq_of_Clusters (a b : kafconfig.KafConfig) (h : a.Clusters = b.Clusters) :
    a = b := by
  cases a
  cases b
  simp_all

theorem legacy_config_eq (svc : Client) (A : GoMap String) (hA : ∀ p ∈ A, p.2 ≠ "")
    (infos : List ClusterInfo) :
    Legacy.newKafConfig (legacyResolveAll svc A infos)
      = kafconfig.New (resolveAll svc A infos) := by
  apply KafConfig_eq_of_Clusters
  rw [Legacy_newKafConfig_eq_map, kafconfig_New_eq_map]
  simp only [legacyResolveAll, resolveAll, List.map_map]
  apply List.map_congr_left
  intro ci _
  have hname := legacy_name_eq A hA ci (brokerStringOf svc ci.ClusterArn)
  simp only [Function.comp_apply, kafconfig.KafCluster.mk.injEq]
  exact ⟨hname, rfl, rfl⟩

/-- C10: for every raw cluster list (a listing whose broker requests all succeed) and every
alias table in which no alias is the empty string, with no inclusion filter, the legacy entry
point (`getClusters` then `newKafConfig` of `main.go`) and the current one (`getClusters`, the
filter step with an empty filter, then `kafconfig.New`) both return, and they build the same
Format A configuration: the same ordered list of (name, brokers, version) entries, one per
listed cluster. -/
theorem legacy_eq_current (svc : Client) (A : GoMap String) (infos : List ClusterInfo)
    (hA : ∀ p ∈ A, p.2 ≠ "")
    (hl : svc.ListClusters = .ok infos)
    (hb : ∀ ci ∈ infos, ∃ b, svc.GetBootstrapBrokers ci.ClusterArn = .ok b) :
    ∃ (csL : List Legacy.cluster) (cs : List Cluster),
      Legacy.getClusters svc A = .ok csL ∧
      getClusters svc A = .ok cs ∧
      Legacy.newKafConfig csL = kafconfig.New (filterStep [] cs) ∧
      (kafconfig.New (filterStep [] cs)).Clusters.length = infos.length := by
  refine ⟨legacyResolveAll svc A infos, resolveAll svc A infos,
    Legacy_getClusters_of_ok svc A infos hl hb, getClusters_of_ok svc A infos hl hb, ?_, ?_⟩
  · rw [filterStep_nil]
    exact legacy_config_eq svc A hA infos
  · rw [filterStep_nil, kafconfig_New_eq_map]
    simp [resolveAll]

/-- Both entry points on `prod-1` aliased to `production`: the one entry
`(production, [b1:9092, b2:9092], 3.5.1)`. -/
theorem legacy_eq_current_witness :
    (∃ (csL : List Legacy.cluster) (cs : List Cluster),
      Legacy.getClusters svcOne [("prod-1", "production")] = .ok csL ∧
      getClusters svcOne [("prod-1", "production")] = .ok cs ∧
      Legacy.newKafConfig csL = kafconfig.New (filterStep [] cs) ∧
      (kafconfig.New (filterStep [] cs)).Clusters.length
        = ([⟨"arn-1", "prod-1", "3.5.1", "0xc000012340"⟩] : List ClusterInfo).length) ∧
    (Legacy.getClusters svcOne [("prod-1", "production")]).map Legacy.newKafConfig
      = .ok { Clusters := [⟨"production", ["b1:9092", "b2:9092"], "3.5.1"⟩] } :=
  ⟨legacy_eq_current svcOne [("prod-1", "production")]
      [⟨"arn-1", "prod-1", "3.5.1", "0xc000012340"⟩] (by decide) rfl
      (fun _ _ => ⟨"b1:9092,b2:9092", rfl⟩),
   rfl⟩

/-! ## The alias flag (C5) -/

theorem cutFirst_eq_none_iff (sep : Char) (s : List Char) :
    cutFirst sep s = none ↔ sep ∉ s := by
  induction s with
  | nil => simp [cutFirst]
  | cons c cs ih =>
    by_cases hc : c = sep
    · simp [cutFirst, hc]
    · have hsc : ¬ sep = c := fun h => hc h.symm
      cases hcut : cutFirst sep cs with
      | none =>
        have hmem := ih.mp hcut
        simp [cutFirst, hc, hcut, hsc, hmem]
      | some p =>
        have hmem : ¬ sep ∉ cs := fun h => by
          rw [ih.mpr h] at hcut
          exact Option.noConfusion hcut
        simp only [cutFirst, hc, if_false, hcut]
        constructor
        · intro h
          exact Option.noConfusion h
        · intro h
          exact absurd (fun hin => h (List.mem_cons_of_mem c hin)) hmem

theorem cutFirst_eq_some (sep : Char) (s a b : List Char)
    (h : cutFirst sep s = some (a, b)) : s = a ++ sep :: b ∧ sep ∉ a := by
  induction s generalizing a with
  | nil => simp [cutFirst] at h
  | cons c cs ih =>
    by_cases hc : c = sep
    · simp only [cutFirst, hc, if_true, Option.some.injEq, Prod.mk.injEq] at h
      obtain ⟨ha, hb⟩ := h
      subst ha
      subst hb
      simp [hc]
    · cases hcut : cutFirst sep cs with
      | none => simp [cutFirst, hc, hcut] at h
      | some p =>
        obtain ⟨a', b'⟩ := p
        simp only [cutFirst, hc, if_false, hcut, Option.some.injEq, Prod.mk.injEq] at h
        obtain ⟨ha, hb⟩ := h
        subst ha
        subst hb
        obtain ⟨hs, hna⟩ := ih a' hcut
        have hsc : ¬ sep = c := fun h => hc h.symm
        refine ⟨by rw [hs]; rfl, ?_⟩
        simp [hsc, hna]

theorem SplitN_two (v : String) :
    strings.SplitN v ':' 2
      = match cutFirst ':' v.data with
        | none => [v]
        | some (a, b) => [String.mk a, String.mk b] := by
  cases h : cutFirst ':' v.data with
  | none => simp [strings.SplitN, splitNChars, h]
  | some p =>
    obtain ⟨a, b⟩ := p
    simp [strings.SplitN, splitNChars, h]

theorem pairFlag_Set_error (h : GoMap String) (v : String) (hv : ':' ∉ v.data) :
    pairFlag.Set h v = (h, some (.base ("invalid pair: " ++ v))) := by
  have hcut := (cutFirst_eq_none_iff ':' v.data).mpr hv
  simp [pairFlag.Set, SplitN_two, hcut]

theorem pairFlag_Set_ok (h : GoMap String) (v : String) (a b : List Char)
    (hcut : cutFirst ':' v.data = some (a, b)) :
    pairFlag.Set h v = (h.set (String.mk a) (String.mk b), none) := by
  simp [pairFlag.Set, SplitN_two, hcut]

/-- C5: `pairFlag.Set(v)` returns an error exactly when `v` contains no `:`; on success `v` is
`k`, a `:`, then `val`, with no `:` in `k`, the table afterwards maps `k` to `val` and every
other key keeps its previous value; on error the table is unchanged. The legacy program's
`pairFlag.Set` is the same function. -/
theorem pairFlag_Set_spec (h : GoMap String) (v : String) :
    (((pairFlag.Set h v).2).isSome = true ↔ ':' ∉ v.data) ∧
    (((pairFlag.Set h v).2).isSome = true → (pairFlag.Set h v).1 = h) ∧
    ((pairFlag.Set h v).2 = none →
      ∃ k val : String, v = k ++ ":" ++ val ∧ ':' ∉ k.data ∧
        GoMap.get (pairFlag.Set h v).1 k = some val ∧
        ∀ k2 : String, k2 ≠ k → GoMap.get (pairFlag.Set h v).1 k2 = GoMap.get h k2) ∧
    Legacy.pairFlag.Set h v = pairFlag.Set h v := by
  cases hcut : cutFirst ':' v.data with
  | none =>
    have hv := (cutFirst_eq_none_iff ':' v.data).mp hcut
    rw [pairFlag_Set_error h v hv]
    refine ⟨?_, ?_, ?_, ?_⟩
    · simp [hv]
    · intro _
      rfl
    · intro hnone
      simp at hnone
    · exact pairFlag_Set_error h v hv
  | some p =>
    obtain ⟨a, b⟩ := p
    obtain ⟨hs, hna⟩ := cutFirst_eq_some ':' v.data a b hcut
    have hv : ¬ ':' ∉ v.data := by
      rw [hs]
      simp
    rw [pairFlag_Set_ok h v a b hcut]
    refine ⟨?_, ?_, ?_, ?_⟩
    · simp [hv]
    · intro hsome
      simp at hsome
    · intro _
      refine ⟨String.mk a, String.mk b, ?_, hna, GoMap.get_set_self _ _ _, ?_⟩
      · apply String.ext
        simp [hs]
      · intro k2 hk2
        exact GoMap.get_set_ne _ _ _ _ hk2
    · exact pairFlag_Set_ok h v a b hcut

/-- The flag values `bad-value-no-colon` (refused, table unchanged) and `prod-1:a:b` (key
`prod-1`, alias `a:b`, the other key untouched). -/
theorem pairFlag_Set_spec_witness :
    (pairFlag.Set [("staging", "s")] "bad-value-no-colon").1 = [("staging", "s")] ∧
    (∃ k val : String, "prod-1:a:b" = k ++ ":" ++ val ∧ ':' ∉ k.data ∧
      GoMap.get (pairFlag.Set [("staging", "s")] "prod-1:a:b").1 k = some val ∧
      ∀ k2 : String, k2 ≠ k →
        GoMap.get (pairFlag.Set [("staging", "s")] "prod-1:a:b").1 k2
          = GoMap.get [("staging", "s")] k2) ∧
    pairFlag.Set [("staging", "s")] "prod-1:a:b"
      = ([("prod-1", "a:b"), ("staging", "s")], none) :=
  ⟨(pairFlag_Set_spec [("staging", "s")] "bad-value-no-colon").2.1 rfl,
   (pairFlag_Set_spec [("staging", "s")] "prod-1:a:b").2.2.1 rfl,
   rfl⟩

/-! ## Serialization errors and the output stream (C6) -/

theorem kafEmit_error (encode : kafconfig.KafConfig → String × Option Error)
    (cs : List Cluster) (out : String) (e : Error)
    (h : (kafEmit encode cs out).2 = some e) : (kafEmit encode cs out).1 = out := by
  unfold kafEmit at h ⊢
  cases hm : kafconfig.Marshal encode (kafconfig.New cs) with
  | error err => simp [hm]
  | ok b => simp [hm] at h

theorem kafkactlEmit_error
    (encode : kafkactlconfig.KafkactlConfig → String × Option Error)
    (cs : List Cluster) (out : String) (e : Error)
    (h : (kafkactlEmit encode cs out).2 = some e) : (kafkactlEmit encode cs out).1 = out := by
  unfold kafkactlEmit at h ⊢
  cases hm : kafkactlconfig.Marshal encode (kafkactlconfig.New cs) with
  | error err => simp [hm]
  | ok b => simp [hm] at h

theorem kclEmitLoop_error (encode : kclconfig.KclConfig → String × Option Error)
    (cfgs : List kclconfig.Config) (out : String) (e : Error)
    (h : (kclEmitLoop encode cfgs out).2 = some e) :
    ∃ (pre : List kclconfig.Config) (cfg : kclconfig.Config) (post : List kclconfig.Config)
      (docs : List String) (cause : Error),
      cfgs = pre ++ cfg :: post ∧
      List.Forall₂ (fun c d => kclconfig.Marshal encode c = .ok d) pre docs ∧
      kclconfig.Marshal encode cfg = .error cause ∧
      e = .wrap "marshal" cause ∧
      (kclEmitLoop encode cfgs out).1 = printAll out docs := by
  induction cfgs generalizing out with
  | nil => simp [kclEmitLoop] at h
  | cons c rest ih =>
    cases hm : kclconfig.Marshal encode c with
    | error err =>
      simp only [kclEmitLoop, hm, Option.some.injEq] at h
      refine ⟨[], c, rest, [], err, rfl, List.Forall₂.nil, hm, h.symm, ?_⟩
      simp [kclEmitLoop, hm, printAll]
    | ok b =>
      simp only [kclEmitLoop, hm] at h
      obtain ⟨pre, cfg, post, docs, cause, hsplit, hpre, hcfg, he, hout⟩ := ih _ h
      refine ⟨c :: pre, cfg, post, b :: docs, cause, by rw [hsplit]; rfl,
        List.Forall₂.cons hm hpre, hcfg, he, ?_⟩
      simp only [kclEmitLoop, hm]
      rw [hout]
      rfl

/-- C6, the claim as worded fails for `kcl`: with the clusters `prod-1` and `staging` and an
encoder that refuses the second document, `Exec` returns the serialization error after the
first document has been written to the (initially empty) output stream. -/
theorem kclExec_partial_output_counterexample :
    kclExec svcTwo encodeRefusingSecond [] [] ""
      = ("# name: prod-1\nok\n", some (.wrap "marshal" (.base "refused"))) ∧
    (kclExec svcTwo encodeRefusingSecond [] [] "").1 ≠ "" := by
  refine ⟨rfl, ?_⟩
  decide

/-- C6 (amended): if the `kaf` or the `kafkactl` `Exec` returns a serialization error, nothing
has been written to the output stream. If the `kcl` `Exec` returns a serialization error, what
has been written is exactly the complete documents, one line break after each, of the clusters
that precede the first cluster whose encoding fails (nothing when it is the first cluster); no
part of the failing document is written. -/
theorem exec_serialization_error :
    (∀ (svc : Client) (encode : kafconfig.KafConfig → String × Option Error)
        (A : GoMap String) (F : List String) (out : String) (e : Error),
      (kafExec svc encode A F out).2 = some (.wrap "marshal" e) →
      (kafExec svc encode A F out).1 = out) ∧
    (∀ (svc : Client) (encode : kafkactlconfig.KafkactlConfig → String × Option Error)
        (A : GoMap String) (F : List String) (out : String) (e : Error),
      (kafkactlExec svc encode A F out).2 = some (.wrap "marshal" e) →
      (kafkactlExec svc encode A F out).1 = out) ∧
    (∀ (svc : Client) (encode : kclconfig.KclConfig → String × Option Error)
        (A : GoMap String) (F : List String) (out : String) (e : Error),
      (kclExec svc encode A F out).2 = some (.wrap "marshal" e) →
      ∃ (cs : List Cluster) (pre : List kclconfig.Config) (cfg : kclconfig.Config)
        (post : List kclconfig.Config) (docs : List String),
        getClusters svc A = .ok cs ∧
        kclconfig.New (filterStep F cs) = pre ++ cfg :: post ∧
        List.Forall₂ (fun c d => kclconfig.Marshal encode c = .ok d) pre docs ∧
        kclconfig.Marshal encode cfg = .error e ∧
        (kclExec svc encode A F out).1 = printAll out docs) := by
  refine ⟨?_, ?_, ?_⟩
  · intro svc encode A F out e h
    unfold kafExec at h ⊢
    cases hg : getClusters svc A with
    | error err => simp [hg]
    | ok cs =>
      simp only [hg] at h ⊢
      exact kafEmit_error encode _ out _ h
  · intro svc encode A F out e h
    unfold kafkactlExec at h ⊢
    cases hg : getClusters svc A with
    | error err => simp [hg]
    | ok cs =>
      simp only [hg] at h ⊢
      exact kafkactlEmit_error encode _ out _ h
  · intro svc encode A F out e h
    unfold kclExec at h ⊢
    cases hg : getClusters svc A with
    | error err =>
      simp only [hg, Option.some.injEq, Error.wrap.injEq] at h
      exact absurd h.1 (by decide)
    | ok cs =>
      simp only [hg, kclEmit] at h ⊢
      obtain ⟨pre, cfg, post, docs, cause, hsplit, hpre, hcfg, he, hout⟩ :=
        kclEmitLoop_error encode _ out _ h
      have hcause : e = cause := by
        simpa using he
      subst hcause
      exact ⟨cs, pre, cfg, post, docs, rfl, hsplit, hpre, hcfg, hout⟩

/-- A refusing YAML encoder leaves the stream of `kaf` and of `kafkactl` as it was; the TOML
encoder that refuses the second of two documents leaves the first document on the stream of
`kcl`. -/
theorem exec_serialization_error_witness :
    (kafExec svcOne (fun _ => ("clus", some (.base "refused"))) [] [] "").1 = "" ∧
    (kafkactlExec svcOne (fun _ => ("cont", some (.base "refused"))) [] [] "").1 = "" ∧
    (∃ (cs : List Cluster) (pre : List kclconfig.Config) (cfg : kclconfig.Config)
        (post : List kclconfig.Config) (docs : List String),
        getClusters svcTwo [] = .ok cs ∧
        kclconfig.New (filterStep [] cs) = pre ++ cfg :: post ∧
        List.Forall₂ (fun c d => kclconfig.Marshal encodeRefusingSecond c = .ok d) pre docs ∧
        kclconfig.Marshal encodeRefusingSecond cfg = .error (.base "refused") ∧
        (kclExec svcTwo encodeRefusingSecond [] [] "").1 = printAll "" docs) :=
  ⟨exec_serialization_error.1 svcOne (fun _ => ("clus", some (.base "refused"))) [] [] ""
      (.wrap "yaml encode" (.base "refused")) rfl,
   exec_serialization_error.2.1 svcOne (fun _ => ("cont", some (.base "refused"))) [] [] ""
      (.wrap "yaml encode" (.base "refused")) rfl,
   exec_serialization_error.2.2 svcTwo encodeRefusingSecond [] [] "" (.base "refused") rfl⟩

end Mskrc
